import Mathlib

/-!
Formal model of the mlpack repository fragments under verification:

* the Fruit Tree Navigation (FTN) reinforcement-learning toy environment,
  translated from methods/reinforcement_learning/environment/ftn.hpp; and
* the incremental (Hoeffding) decision-tree subsystem, whose implementation
  files are declared in the build lists but absent from the source tree, and
  which is therefore modelled from the specification document.

Machine reals (double) that only ever hold integer or decimal values are
modelled as rationals; container indices as naturals.
-/

set_option maxHeartbeats 1000000

/-! ## Fruit Tree Navigation environment (translated from ftn.hpp) -/

/-- Translated from the source: FruitTreeNavigation::State, the pair
(row, column) giving the zero based index of a node in the tree.  The
source stores the pair in a 2-vector of doubles; the dynamics only ever
produce non-negative integers, so the model uses naturals. -/
structure FTState where
  row : ℕ
  col : ℕ
deriving DecidableEq

/-- Translated from the source: FruitTreeNavigation::Action, either left
or right. -/
inductive FTAction where
  | left
  | right
deriving DecidableEq

/-- Translated from the source: the mutable bookkeeping of a
FruitTreeNavigation instance (maxSteps, stepsPerformed) together with the
depth of its fruit tree. -/
structure FTEnv where
  maxSteps : ℕ
  stepsPerformed : ℕ
  depth : ℕ
deriving DecidableEq

/-- Translated from the source: the next-state computation inside
FruitTreeNavigation::Sample.  The source forms
currentState + direction where currentState is (row, column) and
direction is (1, column) for left and (1, column + 1) for right, so the
new column is column + column, resp. column + column + 1. -/
def sampleNext (s : FTState) (a : FTAction) : FTState :=
  match a with
  | .left => ⟨s.row + 1, s.col + s.col⟩
  | .right => ⟨s.row + 1, s.col + (s.col + 1)⟩

/-- Translated from the source: the state/step effects of
FruitTreeNavigation::Sample — stepsPerformed is incremented once, and the
next state is currentState + direction. -/
def ftnSample (env : FTEnv) (s : FTState) (a : FTAction) : FTEnv × FTState :=
  ({ env with stepsPerformed := env.stepsPerformed + 1 }, sampleNext s a)

/-- Translated from the source: FruitTreeNavigation::IsTerminal — true when
maxSteps is nonzero and stepsPerformed has reached it, or when the state's
row equals the fruit tree's depth. -/
def isTerminal (env : FTEnv) (s : FTState) : Bool :=
  (env.maxSteps != 0 && decide (env.maxSteps ≤ env.stepsPerformed)) ||
    (s.row == env.depth)

/-- Translated from the source: FruitTreeNavigation::InitialSample — resets
stepsPerformed to zero and returns the root state (0, 0). -/
def initialSample (env : FTEnv) : FTEnv × FTState :=
  ({ env with stepsPerformed := 0 }, ⟨0, 0⟩)

/-- Translated from the source: FruitTree::validDepths = {5, 6, 7}. -/
def validDepths : List ℕ := [5, 6, 7]

/-- Translated from the source: the CCS reward matrix stored in FruitTree::ConvexSetMap (6 reward rows, one column per leaf). -/
def ccs5 : List (List ℚ) :=
  [
   [3.67917966,7.49190652,3.14072363,0.03085158,4.02109647,2.96104264,3.95849765,0.74185053,4.28506840,5.93102382,1.05416268,0.79064992,4.35145246,2.44514113,6.66924742,4.45750971,1.70141153,1.61886242,2.36047279,0.52087376,4.85800708,3.51780254,0.92487495,0.91807423,1.00725144,1.89889027,4.57737545,1.23346934,1.51947586,3.81593770,5.85626898,4.24912001],
   [0.38835143,0.86177565,8.13203090,4.25364725,4.65093134,6.42797292,4.90714693,1.02527749,0.09305206,4.12666154,2.28974750,0.57247091,0.63842407,3.33980397,3.12365865,3.52046079,6.84591866,1.17208561,2.62076690,3.04167888,1.07551152,1.44977209,0.88767274,2.21441185,3.13922254,4.26005076,1.06276164,1.23694538,8.43245754,2.93304432,4.80785389,6.97078189],
   [8.09989551,0.26446419,3.56036928,3.34139266,5.52044309,4.00884559,3.91729584,5.89640728,7.94851261,0.77446586,1.46517302,4.45310153,0.74938270,2.63961606,5.35457136,3.30278422,0.69367176,0.89685985,7.50292079,0.13469428,0.44983357,2.26423569,2.25049907,3.17003378,5.11333093,3.80550430,4.19723485,9.64358056,4.84809716,0.41425422,1.58310642,4.74298955],
   [2.86026356,6.40116659,2.95551047,4.67838906,0.41989912,2.28915409,2.69024104,5.80289307,1.77192616,4.31927672,2.79084328,6.54823417,1.11659248,1.86832856,1.03950090,3.47142192,1.01722498,3.80015468,0.53373023,7.33280189,3.87424429,6.76102431,2.94454564,8.38445357,2.46965818,2.60171900,6.86155259,0.16691509,0.58788756,5.33636409,3.48908773,1.38027302],
   [3.24527031,1.13497678,0.38337821,1.98970378,5.07013412,0.82767172,6.08226306,2.44397849,2.93208106,5.33551751,9.09963140,6.00440567,7.71912589,8.08225336,0.16909670,4.12997745,6.77031075,8.79718107,5.49537505,2.69762123,5.75944170,5.18387135,2.46602119,1.62930760,6.66930986,2.73103432,2.25429762,0.29485875,0.37534243,1.01045180,2.29308951,0.67165641],
   [1.41124976,0.89198211,1.56450569,6.70032708,2.41697202,5.28368061,0.82077889,4.89737136,2.59111093,0.26443358,0.95234852,0.53364626,4.38907945,2.66194486,3.99791261,5.26508267,1.69869412,1.83563934,0.88425889,5.42324568,5.18263972,2.79508338,8.86229586,3.35420641,3.52216804,7.03824055,2.85282836,1.95833379,1.61068716,6.86778490,4.75924740,2.91563942]
  ]

/-- Translated from the source: the CCS reward matrix stored in FruitTree::ConvexSetMap (6 reward rows, one column per leaf). -/
def ccs6 : List (List ℚ) :=
  [
   [0.26745039,0.46075946,0.58443330,4.01332296,3.74601154,2.42167773,5.26768145,0.19537027,5.92544610,2.22158757,4.43311346,6.44612546,2.39054781,3.26794393,3.96600091,6.15119272,2.71960250,0.29748325,6.37849798,0.79285198,0.24871352,5.27363120,1.74241088,1.65116829,2.50787660,1.05128312,6.30499955,4.74718378,1.25720612,0.63888729,0.74870183,3.57753129,3.94583726,2.53054533,1.63510684,7.11491625,2.75824608,4.92392025,2.43924518,1.14431283,7.08401121,0.71623214,1.33651336,3.09497945,5.06781785,8.30192712,5.96294481,0.43320751,3.70648270,4.44128859,0.93689572,1.12281975,4.27687318,3.73578206,6.05671623,1.40468169,4.41604152,5.95498781,9.59164585,4.45797750,2.12268361,3.08973572,2.58502970,4.72502594],
   [3.54435815,5.29084735,4.28059796,7.17080888,0.91228863,3.34415377,0.23364916,2.34333650,0.35473447,1.01733311,4.91328158,5.14526023,1.97492965,3.28877157,3.62669050,2.82397981,2.17993876,8.22965311,3.80507597,4.00586269,3.25946831,0.59346769,2.32320373,3.72063198,4.59291179,4.85979168,1.82204004,6.36499948,0.74301296,0.28507461,2.51804488,3.67307393,0.62586462,4.24061290,3.25906419,1.26647073,5.28476545,4.74424707,1.00523211,4.55594834,1.66591657,3.11241519,4.76969307,1.22758490,3.12557557,0.40973443,6.46817991,1.24640954,7.60850058,1.82026860,0.77924846,2.73059913,2.83055698,6.07088863,0.74442960,5.19102545,0.86551038,5.94146861,1.48925818,3.16479945,0.64607954,5.62237870,0.26144699,5.38532887],
   [4.39088762,7.92804145,7.00237899,1.46983043,5.92072559,6.35216354,0.23646111,6.62653841,5.44597420,7.94997140,5.11707495,1.37156642,4.51911017,2.91598351,4.44655634,4.24282686,2.79799651,0.07526586,2.51262120,0.36314749,3.99880450,0.73640014,9.17490044,5.63953167,0.81935207,3.28552824,1.93686289,4.05818821,1.33743660,4.87857435,6.59949427,5.43392619,0.72667245,2.22057705,0.37991887,5.01203819,2.49891273,2.56041791,6.09587506,4.12473926,2.90546299,1.70187710,0.64008086,3.84351994,6.88555034,1.69099424,1.35988062,5.63139070,3.73003227,4.22272069,2.83896436,0.32294675,5.27541783,2.17391882,4.30057711,6.72110624,2.05709774,4.17018388,0.72278285,1.00362159,6.43093367,0.97379010,2.28343938,5.40386645],
   [0.58988260,2.28448495,2.51448544,3.82182158,4.37056585,0.03806333,1.25030802,2.84247689,3.57702685,3.63797990,3.90659040,1.37449512,0.07046741,0.49403134,6.03660690,1.75378872,7.20950623,1.98395573,0.75632265,8.93447730,6.93351960,7.30730989,2.28211094,0.25461896,8.24752456,6.26921471,3.35062427,4.43996757,8.30597947,6.41971655,2.14794505,2.06131042,9.06686254,7.51774642,7.02694214,4.52740681,0.63079997,4.76935788,1.47285316,5.80221944,2.62634248,7.50296641,6.48262472,7.19938601,1.21769126,4.54961192,2.83106174,1.62670791,2.71892257,2.30194565,1.98294555,2.84237021,5.03273808,4.89911933,3.09050824,4.75666122,4.70986355,0.93397018,2.04850964,2.24428595,0.73854263,5.75218769,8.50777354,1.57883722],
   [7.79842320,1.01115855,4.32323182,2.20659648,2.73662976,0.66323198,1.41161868,1.71456358,0.95237377,3.77557594,2.22236853,0.62784821,1.74139824,7.86629258,1.58135473,4.80532629,4.70827355,1.77853129,2.49531244,1.82041716,4.81556096,4.09948515,1.47515927,6.35720791,0.33308447,3.39863537,1.83174219,0.42190953,5.08394071,5.85711844,6.05084902,2.63388133,1.13056724,3.47885032,2.53469812,1.16148237,7.07433925,1.43523334,6.69893956,1.92147095,3.62934098,5.38823009,5.64538051,3.78799616,2.73086695,2.64473811,0.74946184,4.58871327,1.43630490,0.67272146,8.45958836,1.68312155,0.01475194,0.27124696,1.16194731,0.91486715,3.10647700,0.89950814,1.01819820,7.91409455,6.94484318,3.94430958,3.93535625,0.24912224],
   [2.63110921,1.64300963,2.69974756,3.29195217,4.84656035,6.49313525,8.28161149,6.28809908,4.62628146,1.82692783,3.13406169,5.27343712,8.18077893,2.80694464,3.52204257,3.16535161,2.42446381,5.00793316,5.63243171,0.23188470,1.43535682,1.04487730,0.06168781,3.33875729,1.95237595,3.69171469,6.21238686,0.76864591,1.11484520,0.43757381,2.88429005,5.74420686,0.15630224,1.43654771,5.54598751,0.89835304,2.78829399,4.67811073,2.97234100,4.85413307,4.30464879,1.25537605,1.07671362,2.82159852,2.86300362,0.59753994,3.48999411,6.54551489,2.23697394,7.30607281,3.86763124,8.95917647,4.53184284,4.51523815,5.77630391,1.56334486,6.60944809,3.18829456,0.16402902,1.19729395,2.22341982,3.04119754,0.40734769,4.11288237]
  ]

/-- Translated from the source: the CCS reward matrix stored in FruitTree::ConvexSetMap (6 reward rows, one column per leaf). -/
def ccs7 : List (List ℚ) :=
  [
   [9.49729374,1.74327056,7.44433577,4.78968371,5.77532710,6.88088248,0.96132316,2.06562582,0.58513677,1.24387716,4.42188476,2.22509178,5.63262741,3.99576756,3.86901361,0.39341137,3.45410722,5.10549280,2.10660119,2.41451522,5.07301207,5.86496023,6.04985605,3.38761354,4.61573836,6.49637377,2.30298197,0.54574584,3.61195169,7.63538382,2.96169175,2.90919565,6.76482657,8.03143521,1.80722860,7.22319621,4.03459556,5.73690431,2.53210586,3.89471153,2.41451158,5.34003191,0.57978779,0.00888177,1.19433531,4.67099335,7.30408120,5.92805521,1.68150470,5.91934684,5.53172263,1.81587798,2.55234884,5.12272256,0.27055161,1.46014514,3.98703736,0.60157514,3.12439557,7.26979727,5.29377498,4.63626603,7.30424808,5.29547651,3.49313310,2.73742580,1.31467477,2.76492957,1.94582268,3.39276969,7.75709126,1.47805473,1.82149711,2.36459101,0.78787403,0.75428354,5.12459705,0.70178603,6.99582269,3.69693603,3.09834673,3.26246217,5.71260164,1.73776892,5.84288335,3.91342565,3.43153396,2.77747993,0.79943355,1.86322992,2.28255306,3.76567476,0.95794499,5.26466955,6.93893651,3.12497486,1.84234679,4.90541585,0.77144415,6.65232787,5.31726305,6.80965923,2.87351031,4.39372404,1.04344792,6.79414017,1.08440052,0.99064629,7.14046972,8.79248611,2.94607977,0.88402512,1.94480257,2.48584079,7.48552913,3.59720211,1.87916271,2.83343404,0.95627524,2.37882278,3.90209510,4.61696992,2.21521553,5.65137310,0.68558487,2.61242526,7.79480886,1.68967122],
   [2.98910393,0.46482846,2.27422887,3.36538593,5.31652260,6.02843423,1.91371320,5.11098416,4.00782651,2.36413212,1.93117784,5.69526240,0.25607217,3.36409888,2.35718170,4.84127331,7.40358442,6.36812455,0.49899214,6.11407574,1.04764679,5.29477535,2.15313597,1.73456127,0.10237836,5.04239913,3.29946741,2.42444606,6.65026280,3.88682729,0.69908964,5.51711193,5.05071646,2.95933932,3.77826266,0.66064721,0.68212834,1.64965556,3.05479350,5.32895093,1.50862356,1.89167534,6.09839275,0.18279964,6.29760769,3.31383981,3.80874526,2.31772110,2.41378962,1.69803498,1.58718247,3.88103491,1.33311404,2.03525835,1.32505827,1.17338868,1.50123650,1.24011244,8.26536950,2.40760022,0.84307824,0.39739091,1.14559469,2.85826185,4.54336493,3.81123532,2.17922309,4.10249912,1.87031650,4.78530893,2.86264536,0.56765227,2.26115095,0.12105503,3.72625502,7.27153941,2.87302371,2.88216063,0.77356834,0.85342739,3.77166522,3.77555064,2.65661250,2.79515779,2.11962167,1.03017066,0.09349497,1.37010370,8.13116642,3.54240501,2.45104299,2.57286633,1.73192724,6.16182728,5.88859230,3.76754998,2.60493608,6.68462108,4.40756648,0.61323121,2.11795941,2.23215998,0.55340637,0.06868095,0.31173723,0.09388667,5.95542225,1.35478691,4.96484612,2.96251195,5.56169236,0.35402459,1.35885649,5.07531399,3.84871747,4.94644652,8.77986293,4.99152641,7.31066478,7.66799820,1.06132813,4.62523330,1.61363547,0.06657199,0.30887798,6.59409851,4.68269928,1.11253309],
   [0.19374418,7.55950543,4.78271726,0.88592964,2.38513502,0.02104655,0.94262497,6.29032188,0.08530382,3.54918392,7.33958506,4.02537895,4.21983956,5.49561503,0.87556104,1.70702545,4.80502365,4.58494717,2.13559315,0.02657181,0.38126799,0.49074425,3.01872538,2.59356744,3.84736614,0.20827311,4.49935456,1.60434868,3.74800770,3.22292045,1.91478181,1.75245139,3.62871840,3.39642327,0.16093320,1.26699526,1.37929110,0.64870873,0.38493697,1.35814442,1.41410605,2.58671856,7.76016689,6.91394786,1.55051483,1.63220871,3.72204577,2.46175229,3.08030571,2.00819247,2.90049338,6.91095741,4.82796793,0.58747523,0.82880694,1.66221135,3.76330075,3.12416622,0.88929913,4.84651024,6.79950126,0.76906016,2.98920677,6.93657406,1.56445202,5.00271032,2.63299757,5.39611053,4.23230029,1.24380350,2.29374145,7.37702891,1.21455515,0.24822624,1.21190521,4.72464149,0.43644150,4.06577522,2.80788891,8.50506298,3.14744542,5.13658315,0.79608313,5.26232705,3.05793046,1.54153396,5.55042223,7.76474417,3.40436523,4.19454516,0.21768383,5.15499273,5.52153846,5.64238349,0.31336892,4.92020336,4.71846310,3.29352326,2.83853600,0.05237419,2.65122017,2.63179708,5.41604829,4.42865756,1.56573663,6.72878775,0.39378945,4.38745525,3.19339033,2.89483138,2.59013018,3.25443105,0.88307848,4.43407763,2.91583698,2.96841414,0.14218332,4.61233030,4.38424188,2.56820049,0.91070059,5.02800260,2.97780427,0.99745488,2.04370625,4.45452192,3.85253341,3.74425011],
   [0.48817863,1.57177559,3.46265870,6.38949462,2.08315748,4.00481529,3.51414795,4.60098502,8.62832436,7.29005232,4.19677527,5.51223418,5.34274324,3.48562801,0.82003307,1.67922015,1.81341621,1.22495898,0.77146133,3.15297076,1.75203503,5.02714001,2.14930505,4.78587994,7.75293952,3.29038975,5.34601600,3.73649348,2.29512444,0.21632413,3.19293209,2.91477850,2.62715174,3.24934646,0.03592059,5.78540374,8.75546017,5.25548535,7.20837806,4.04568659,0.51982294,0.85251419,0.41757963,2.79976789,3.59191723,2.23502881,0.66679044,4.46357240,2.26997261,0.77198553,3.84536120,2.44678365,6.60348354,7.29581125,5.07516063,3.56456484,8.02615543,3.63995686,4.26851883,3.36817790,3.34597688,4.12608336,3.67674168,1.33672260,4.02157354,1.84885547,0.16194893,5.09161003,8.24909730,7.20460307,2.68872195,0.09271143,6.81753044,3.62858762,8.38489292,3.80635658,2.27226903,6.39365228,0.88674480,1.79107374,8.10858723,5.95335244,0.61669039,6.15519998,0.02686868,9.00377711,0.76858599,0.73141948,0.56073057,2.38460530,1.84082889,6.27845094,3.27936890,0.09414682,2.38592572,3.59103512,0.96653102,1.25075319,3.65761195,3.02035801,1.55577325,6.09494365,3.55340001,5.35634714,5.79359716,2.10117159,2.98381656,2.66407385,1.54451680,1.82850443,4.02632765,6.37560825,0.22492469,4.51885124,3.06351150,4.91597513,2.30457011,6.57058571,3.81744136,3.40968706,3.86200052,4.30399729,7.14111649,4.47419538,9.13806017,3.66950713,0.20850008,3.12606095],
   [0.75034508,5.29791865,0.50993921,2.00825232,4.17604119,0.48111127,1.61855745,0.38568959,1.93453438,5.20695449,0.94119320,3.90230246,4.06989729,5.14196367,8.78839182,8.35107069,0.66537847,2.39242255,1.82738095,6.55980963,4.83320736,1.04921431,6.31431071,7.35331757,1.19594946,0.33107957,5.21029158,1.26056229,0.09778884,0.07119400,8.58251758,6.98631598,1.66996898,2.10962576,4.83503526,2.55433573,1.76414640,5.84541730,5.66222550,4.12513338,5.57708595,6.32481989,0.93387774,1.50722126,6.60212631,6.12885063,3.76398221,1.63871164,6.68549178,7.45425308,4.93451202,1.42743937,4.37598182,3.77362349,3.65750329,7.12719319,1.75580291,4.51357407,1.38154049,1.75647764,0.88493918,1.14102927,3.92079189,3.70102745,6.96400202,3.60970535,9.27658681,3.89378732,1.84242598,1.71752335,3.44058744,4.36384564,3.70962435,8.70938165,3.70155394,0.68907238,7.07471522,5.80793442,2.35952093,2.34725025,0.17928020,0.50710019,1.68623679,2.91607776,2.23735440,0.12064941,6.17367356,5.35935029,4.53168239,4.28548294,6.48114612,1.49352325,7.20088206,0.83475936,0.64748960,2.40286990,8.14264373,4.14418724,7.28753539,4.15410725,7.31211902,1.63349762,1.91207540,1.48055098,2.79947656,1.75210434,3.56511194,7.56658676,3.42381000,0.12129745,3.30995993,6.50357815,3.33476206,3.70528802,0.02403987,4.88131902,2.26344244,0.84136667,3.40120183,3.97975549,1.17124110,3.24034661,1.51642660,3.55469208,3.13470834,4.03746871,1.55792871,3.20780397],
   [0.16672279,3.01004973,2.07010153,4.48213313,3.30339978,0.20243633,8.91942003,2.95382160,2.32320047,0.09851170,2.08547622,0.89251721,2.30041742,1.98128815,0.89416779,0.96602394,2.53704984,2.26604992,9.31761807,1.95324369,6.82584056,3.30964927,2.27167613,1.34642252,1.53097533,4.62511436,2.79974498,8.70056821,4.83767393,4.01925448,1.79411341,0.84995649,2.42261528,0.44033503,7.68465356,2.40586313,1.25857076,1.46857511,0.29493761,4.60484989,7.64986205,4.52596770,1.09852695,6.48486038,0.14022512,4.68807186,1.91782718,5.55132881,5.65767640,1.37234202,4.39679691,5.08473102,2.37567598,1.34209305,7.63868547,5.49774348,0.43055159,7.39717359,1.00102909,1.85337834,3.61293088,7.70903059,2.74028780,0.43333184,0.19485449,6.04198936,0.71319734,2.30663915,1.83335339,3.03095584,2.70271701,4.90110451,5.46389662,2.30487785,0.13278932,3.04472702,3.17473726,0.24336517,6.01848497,2.13323710,0.69788831,3.60797944,7.51339754,3.88396316,6.85642056,0.40615586,4.32477477,0.92712408,0.89709087,6.50644492,6.58339180,3.31308685,1.72870459,1.33152576,3.31142816,5.75867877,0.56510457,1.29103422,2.33123310,5.38410334,2.07953799,1.37949068,6.76907800,5.49499576,7.41347881,1.03415104,6.44893532,3.68549645,0.24134276,1.47564250,5.14900658,2.35731528,9.07855690,3.77512426,3.35655202,2.40566715,2.98803000,1.37921369,0.52641131,1.21775717,8.15665416,1.72793421,5.50695815,5.86586515,1.38826961,0.28965048,0.02558407,7.86292624]
  ]


/-- Translated from the source: FruitTree::ConvexSetMap.  The source
initializes the std::unordered_map with the character literal keys
'5', '6' and '7', which convert to the size_t keys 53, 54 and 55; the map
has no entry at 5, 6 or 7. -/
def convexSetMap (k : ℕ) : Option (List (List ℚ)) :=
  if k = 53 then some ccs5
  else if k = 54 then some ccs6
  else if k = 55 then some ccs7
  else none

/-- Errors raised by the FruitTree constructor: the std::logic_error thrown
by the explicit depth check, and the std::out_of_range thrown by
std::unordered_map::at on a missing key. -/
inductive CtorError where
  | invalidDepth
  | mapKeyMissing
deriving DecidableEq

/-- Translated from the source: FruitTreeNavigation::rewardSize = 6. -/
def rewardSize : ℕ := 6

/-- Column j of a row-major matrix, used to read the per-leaf reward
columns out of a CCS matrix. -/
def colsOf (m : List (List ℚ)) : List (List ℚ) :=
  (List.range (m.headD []).length).map (fun j => m.map (fun row => row.getD j 0))

/-- Translated from the source: the intended tree matrix of
FruitTree::FruitTree — 2^(depth-1) zero reward columns for the branch
nodes followed by the CCS reward columns for the leaves.  (In the source
this line is unreachable: Fruits() throws first.  The source also has a
further slip there: arma::zeros((rewardSize, 2^(depth-1))) applies the
comma operator, producing a vector rather than a rewardSize-row matrix.) -/
def buildTree (depth : ℕ) (fruits : List (List ℚ)) : List (List ℚ) :=
  List.replicate (2 ^ (depth - 1)) (List.replicate rewardSize 0) ++ colsOf fruits

/-- Translated from the source: FruitTree::FruitTree(depth).  First the
depth check (std::find over validDepths; failure throws std::logic_error),
then tree = join_rows(branches, Fruits()) where
Fruits() = ConvexSetMap.at(depth) throws std::out_of_range whenever the
map lacks the key. -/
def fruitTreeCtor (depth : ℕ) : Except CtorError (List (List ℚ)) :=
  if depth ∈ validDepths then
    match convexSetMap depth with
    | some fruits => .ok (buildTree depth fruits)
    | none => .error .mapKeyMissing
  else .error .invalidDepth

/-- Translated from the source: FruitTree::GetIndex —
static_cast<size_t>(pow(2, row - 1) + column).  For row = 0 the source
computes pow(2, -1) + column = 0.5 + column and the cast truncates it to
column. -/
def getIndex (s : FTState) : ℕ :=
  if s.row = 0 then s.col else 2 ^ (s.row - 1) + s.col

/-! ## Split criteria (modelled from the spec) -/

/-- Modelled from the spec: the two interchangeable split-quality
heuristics, Gini impurity and information gain (spec section 4.2); the
implementation files gini_impurity.hpp and information_gain.hpp are
declared in the build list but absent from the source tree. -/
inductive Criterion where
  | gini
  | infoGain
deriving DecidableEq

/-- Modelled from the spec: Gini impurity of a class distribution with
counts c_i and total n is 1 - sum (c_i / n)^2 (spec section 4.2); an empty
distribution (n = 0) has impurity zero (spec section 8 calls the empty
distribution pure with criterion value zero). -/
noncomputable def giniImpurity (c : List ℕ) : ℝ :=
  if c.sum = 0 then 0
  else 1 - ((c.map (fun k : ℕ => ((k : ℝ) / (c.sum : ℝ)) ^ 2)).sum)

/-- Modelled from the spec: entropy of a class distribution,
-(sum p log2 p) over classes, with 0 log 0 = 0 (spec section 4.2); in this
model the convention is automatic since Real.logb 2 0 = 0. -/
noncomputable def entropy (c : List ℕ) : ℝ :=
  -((c.map (fun k : ℕ =>
      ((k : ℝ) / (c.sum : ℝ)) * Real.logb 2 ((k : ℝ) / (c.sum : ℝ)))).sum)

/-- Modelled from the spec: the criterion's value on a single (unsplit)
class distribution — Gini impurity for the Gini criterion, entropy for the
information-gain criterion (spec sections 4.1 and 4.2). -/
noncomputable def critImpurity : Criterion → List ℕ → ℝ
  | .gini, c => giniImpurity c
  | .infoGain, c => entropy c

/-- Modelled from the spec: a class distribution is pure when at most one
class has a non-zero count (single class, or empty; spec section 8). -/
def isPure (c : List ℕ) : Prop :=
  c.countP (fun k => k != 0) ≤ 1

instance (c : List ℕ) : Decidable (isPure c) := by
  unfold isPure; infer_instance

/-! ## Multi-bin numeric split accumulator (modelled from the spec) -/

/-- Pointwise sum of two per-class count vectors; a missing entry counts
as zero, so no class count is ever dropped. -/
def addCounts : List ℕ → List ℕ → List ℕ
  | [], ys => ys
  | xs, [] => xs
  | x :: xs, y :: ys => (x + y) :: addCounts xs ys

/-- Fresh per-class count vector recording one observation of the given
label. -/
def unitCounts (numClasses label : ℕ) : List ℕ :=
  (List.replicate numClasses 0).set label 1

/-- Modelled from the spec: recording one observation in the multi-bin
accumulator's ordered bin sequence (spec section 3, multi-bin variant;
the implementation file hoeffding_numeric_split.hpp is declared in the
build list but absent from the source tree).  A bin is a boundary value
together with a per-class count vector; an already-seen value increments
its bin's count, a new value becomes a new bin at its sorted position. -/
def insertObs (numClasses : ℕ) (v : ℚ) (label : ℕ) :
    List (ℚ × List ℕ) → List (ℚ × List ℕ)
  | [] => [(v, unitCounts numClasses label)]
  | (b, cs) :: rest =>
    if v = b then (b, cs.set label (cs.getD label 0 + 1)) :: rest
    else if v < b then (v, unitCounts numClasses label) :: (b, cs) :: rest
    else (b, cs) :: insertObs numClasses v label rest

/-- Index of the least element of a list of rationals, earliest among
ties. -/
def idxMin : List ℚ → ℕ
  | [] => 0
  | [_] => 0
  | x :: y :: rest =>
    if x ≤ (y :: rest).getD (idxMin (y :: rest)) 0 then 0 else idxMin (y :: rest) + 1

/-- Gaps between adjacent bin boundaries. -/
def binGaps (bins : List (ℚ × List ℕ)) : List ℚ :=
  (bins.zip bins.tail).map (fun p => p.2.1 - p.1.1)

/-- Modelled from the spec: merging the adjacent bin pair at index i — the
lower bin keeps its boundary and absorbs the upper bin's per-class counts
(spec section 3: two nearest bins are merged to keep the bin count
bounded). -/
def mergeAt : List (ℚ × List ℕ) → ℕ → List (ℚ × List ℕ)
  | (b1, c1) :: (_, c2) :: rest, 0 => (b1, addCounts c1 c2) :: rest
  | x :: rest, i + 1 => x :: mergeAt rest i
  | l, _ => l

/-- Modelled from the spec: one accumulator update — insert the
observation, and if the number of bins now exceeds k, merge the two
nearest adjacent bins (the adjacent pair with the smallest boundary gap,
spec section 3). -/
def updateAcc (numClasses k : ℕ) (bins : List (ℚ × List ℕ)) (v : ℚ) (label : ℕ) :
    List (ℚ × List ℕ) :=
  let ins := insertObs numClasses v label bins
  if k < ins.length then mergeAt ins (idxMin (binGaps ins)) else ins

/-- Folding a whole training sequence of (value, label) observations into
the accumulator, starting from no bins. -/
def trainAcc (numClasses k : ℕ) (obs : List (ℚ × ℕ)) : List (ℚ × List ℕ) :=
  obs.foldl (fun bins p => updateAcc numClasses k bins p.1 p.2) []

/-- Total count of one class over all bins of the accumulator. -/
def classTotal (bins : List (ℚ × List ℕ)) (cls : ℕ) : ℕ :=
  (bins.map (fun b => b.2.getD cls 0)).sum

/-! ## Hoeffding tree node / growth engine (modelled from the spec) -/

/-- Modelled from the spec: an attribute is categorical with a fixed arity
or numeric (spec section 3); the tree implementation files
(hoeffding_tree.hpp and companions) are declared in the build list but
absent from the source tree, so the whole subsystem is modelled from the
specification. -/
inductive AttrKind where
  | categorical (arity : ℕ)
  | numeric
deriving DecidableEq

/-- Modelled from the spec: one attribute value of an example. -/
inductive AttrValue where
  | vcat (id : ℕ)
  | vnum (x : ℚ)
deriving DecidableEq

/-- Modelled from the spec: the per-attribute split accumulator owned by a
leaf — a per-category class-count table for a categorical attribute, the
multi-bin accumulator for a numeric attribute (spec sections 3 and 4.1). -/
inductive AccState where
  | catAcc (table : List (List ℕ))
  | numAcc (bins : List (ℚ × List ℕ))
deriving DecidableEq

/-- Modelled from the spec: the state of an active leaf — total class
counts, one accumulator per attribute, and the examples-since-last-check
counter (spec sections 3 and 4.3). -/
structure LeafState where
  counts : List ℕ
  accs : List AccState
  sinceCheck : ℕ
deriving DecidableEq

/-- Modelled from the spec: a tree node is an active leaf, a categorical
decision node with one child per category, or a binary numeric decision
node with a frozen threshold (spec sections 3 and 4.3). -/
inductive HNode where
  | leaf (ls : LeafState)
  | catNode (attr : ℕ) (children : List HNode)
  | numNode (attr : ℕ) (threshold : ℚ) (left right : HNode)

/-- Modelled from the spec: construction-time configuration — attribute
schema, label domain size, split criterion, confidence delta, tie-break
threshold tau, grace period, minimum samples, maximum numeric bins (spec
sections 3 and 6). -/
structure TreeConfig where
  schema : List AttrKind
  numClasses : ℕ
  criterion : Criterion
  delta : ℝ
  tau : ℝ
  grace : ℕ
  minSamples : ℕ
  maxBins : ℕ

/-- Fresh leaf state with zero counts and empty accumulators, one per
schema attribute (children are seeded with zero counts, spec section
4.3). -/
def freshLeafState (cfg : TreeConfig) : LeafState :=
  { counts := List.replicate cfg.numClasses 0
    accs := cfg.schema.map (fun k =>
      match k with
      | .categorical r => AccState.catAcc (List.replicate r (List.replicate cfg.numClasses 0))
      | .numeric => AccState.numAcc [])
    sinceCheck := 0 }

/-- Fresh Leaf-Active node. -/
def freshLeaf (cfg : TreeConfig) : HNode :=
  .leaf (freshLeafState cfg)

/-- Modelled from the spec: recording one observation in a per-attribute
accumulator (spec section 4.1).  A value of the wrong kind leaves the
accumulator unchanged (such examples are rejected by validation before any
update). -/
def updateAccState (cfg : TreeConfig) (a : AccState) (v : AttrValue) (label : ℕ) : AccState :=
  match a, v with
  | .catAcc table, .vcat c =>
      .catAcc (table.set c ((table.getD c []).set label ((table.getD c []).getD label 0 + 1)))
  | .numAcc bins, .vnum x => .numAcc (updateAcc cfg.numClasses cfg.maxBins bins x label)
  | a, _ => a

/-- Modelled from the spec: the statistics part of one routed example at a
leaf — bump the label's total count, update every attribute accumulator,
increment the since-last-check counter (spec section 4.3). -/
def updateLeafStats (cfg : TreeConfig) (ls : LeafState) (x : List AttrValue) (label : ℕ) :
    LeafState :=
  { counts := ls.counts.set label (ls.counts.getD label 0 + 1)
    accs := (ls.accs.zip x).map (fun p => updateAccState cfg p.1 p.2 label)
    sinceCheck := ls.sinceCheck + 1 }

/-- Modelled from the spec: the quality of a candidate partition is the
criterion's reduction in impurity — the criterion on the parent
distribution minus the size-weighted criterion over the children (spec
sections 4.1 and 4.3: quality is defined so that larger is better, i.e.
greater reduction in impurity; the null option, the trivial partition,
scores zero). -/
noncomputable def partitionQuality (crit : Criterion) (parent : List ℕ)
    (children : List (List ℕ)) : ℝ :=
  critImpurity crit parent -
    ((children.map (fun ch => ((ch.sum : ℝ) / (parent.sum : ℝ)) * critImpurity crit ch)).sum)

/-- Modelled from the spec: a candidate split test — the null "do not
split" option, a categorical test with one outcome per category, or a
binary numeric test at a threshold (spec section 4.1). -/
inductive SplitCand where
  | nullCand
  | catCand (attr : ℕ) (arity : ℕ)
  | numCand (attr : ℕ) (threshold : ℚ)

/-- Candidate with the best quality, earliest among ties, starting from a
default. -/
noncomputable def pickBest (cands : List (SplitCand × ℝ)) (dflt : SplitCand × ℝ) :
    SplitCand × ℝ :=
  cands.foldl (fun best c => if best.2 < c.2 then c else best) dflt

/-- Combined per-class counts of the first i bins. -/
def binPrefixCounts (bins : List (ℚ × List ℕ)) (i : ℕ) : List ℕ :=
  ((bins.take i).map Prod.snd).foldl addCounts []

/-- Combined per-class counts of the bins from index i on. -/
def binSuffixCounts (bins : List (ℚ × List ℕ)) (i : ℕ) : List ℕ :=
  ((bins.drop i).map Prod.snd).foldl addCounts []

/-- Modelled from the spec: the candidate a single attribute accumulator
contributes — the per-category partition for a categorical attribute; for
a numeric attribute, BestBinarySplit scans every threshold position
between adjacent bins and keeps the one maximizing the criterion's
reduction (spec section 4.1).  A numeric attribute with fewer than two
bins cannot split and contributes the null option with quality zero. -/
noncomputable def attrCandidate (crit : Criterion) (parent : List ℕ) (attrIdx : ℕ)
    (a : AccState) : SplitCand × ℝ :=
  match a with
  | .catAcc table => (.catCand attrIdx table.length, partitionQuality crit parent table)
  | .numAcc bins =>
      pickBest
        ((List.range (bins.length - 1)).map (fun j =>
          (SplitCand.numCand attrIdx ((bins.getD (j + 1) (0, [])).1),
            partitionQuality crit parent
              [binPrefixCounts bins (j + 1), binSuffixCounts bins (j + 1)])))
        (.nullCand, 0)

/-- Modelled from the spec: the full candidate list of a leaf — the null
"do not split" option (quality zero) followed by one candidate per
attribute accumulator (spec section 4.3). -/
noncomputable def leafCandidates (cfg : TreeConfig) (ls : LeafState) : List (SplitCand × ℝ) :=
  (SplitCand.nullCand, 0) ::
    ls.accs.enum.map (fun p => attrCandidate cfg.criterion ls.counts p.1 p.2)

/-- Qualities of a leaf's candidates. -/
noncomputable def candQs (cfg : TreeConfig) (ls : LeafState) : List ℝ :=
  (leafCandidates cfg ls).map Prod.snd

/-- Modelled from the spec: the Hoeffding bound
epsilon = sqrt(R^2 ln(1/delta) / (2 n)) (spec section 4.3). -/
noncomputable def hoeffdingEpsilon (R delta : ℝ) (n : ℕ) : ℝ :=
  Real.sqrt (R ^ 2 * Real.log (1 / delta) / (2 * (n : ℝ)))

/-- Modelled from the spec: the criterion's known range R — ln(#classes)
for information gain, 1 for Gini (spec section 4.3). -/
noncomputable def criterionRange : Criterion → ℕ → ℝ
  | .gini, _ => 1
  | .infoGain, numClasses => Real.log (numClasses : ℝ)

/-- Largest element of a list of qualities (zero for the empty list, which
never arises: the candidate list always contains the null option). -/
noncomputable def listMaxQ : List ℝ → ℝ
  | [] => 0
  | x :: xs => xs.foldl max x

/-- Modelled from the spec: the second-best quality — the largest quality
after removing one occurrence of the best (spec section 4.3). -/
noncomputable def secondMaxQ (l : List ℝ) : ℝ :=
  listMaxQ (l.eraseP (fun a => decide (a = listMaxQ l)))

/-- Modelled from the spec: the split decision of a leaf evaluation —
with G1 the best and G2 the second-best candidate quality and epsilon the
Hoeffding bound at this leaf, split when G1 - G2 > epsilon or when
epsilon < tau (spec section 4.3). -/
noncomputable def shouldSplit (cfg : TreeConfig) (ls : LeafState) : Prop :=
  listMaxQ (candQs cfg ls) - secondMaxQ (candQs cfg ls)
      > hoeffdingEpsilon (criterionRange cfg.criterion cfg.numClasses) cfg.delta ls.counts.sum
    ∨ hoeffdingEpsilon (criterionRange cfg.criterion cfg.numClasses) cfg.delta ls.counts.sum
        < cfg.tau

/-- The winning candidate of a leaf evaluation. -/
noncomputable def winningCandidate (cfg : TreeConfig) (ls : LeafState) : SplitCand :=
  (pickBest (leafCandidates cfg ls) (.nullCand, 0)).1

/-- Modelled from the spec: materializing a split decision.  A null win
discards only the accumulators (fresh, empty ones replace them) and resets
the counter; otherwise the winning test becomes a decision node whose
children are fresh zero-count leaves (spec section 4.3). -/
noncomputable def splitLeaf (cfg : TreeConfig) (cand : SplitCand) (ls : LeafState) : HNode :=
  match cand with
  | .nullCand => .leaf { counts := ls.counts, accs := (freshLeafState cfg).accs, sinceCheck := 0 }
  | .catCand attr arity => .catNode attr (List.replicate arity (freshLeaf cfg))
  | .numCand attr thr => .numNode attr thr (freshLeaf cfg) (freshLeaf cfg)

open Classical in
/-- Modelled from the spec: one routed example arriving at a leaf — update
the statistics; when the counter has reached the grace period, the leaf
has at least the minimum number of samples and the class distribution is
not pure, evaluate the Hoeffding split decision, otherwise stay
Leaf-Active; an evaluation that does not split resets the counter (spec
section 4.3). -/
noncomputable def updateLeaf (cfg : TreeConfig) (ls : LeafState) (x : List AttrValue)
    (label : ℕ) : HNode :=
  let ls' := updateLeafStats cfg ls x label
  if cfg.grace ≤ ls'.sinceCheck ∧ cfg.minSamples ≤ ls'.counts.sum ∧ ¬isPure ls'.counts then
    if shouldSplit cfg ls' then splitLeaf cfg (winningCandidate cfg ls') ls'
    else .leaf { ls' with sinceCheck := 0 }
  else .leaf ls'

/-- Modelled from the spec: routing at a categorical decision node — exact
category match; a category outside the trained arity routes to the first
child (spec section 4.3, UnseenCategory policy). -/
def childIdx (v : AttrValue) (numChildren : ℕ) : ℕ :=
  match v with
  | .vcat c => if c < numChildren then c else 0
  | .vnum _ => 0

/-- Modelled from the spec: routing at a numeric decision node — compare
the example's value against the frozen threshold (spec section 4.3). -/
def goesLeft (x : List AttrValue) (attr : ℕ) (thr : ℚ) : Bool :=
  match x.getD attr (.vnum 0) with
  | .vnum v => decide (v < thr)
  | .vcat _ => true

mutual

/-- Modelled from the spec: Train's recursive descent — apply the current
node's split test until a leaf is reached, then update that leaf (spec
sections 4.3 and 4.4). -/
noncomputable def trainNode (cfg : TreeConfig) (n : HNode) (x : List AttrValue) (label : ℕ) :
    HNode :=
  match n with
  | .leaf ls => updateLeaf cfg ls x label
  | .catNode attr ch =>
      .catNode attr (trainChildren cfg ch (childIdx (x.getD attr (.vcat 0)) ch.length) x label)
  | .numNode attr thr l r =>
      if goesLeft x attr thr then .numNode attr thr (trainNode cfg l x label) r
      else .numNode attr thr l (trainNode cfg r x label)
termination_by sizeOf n

/-- Descent into the i-th child of a categorical decision node. -/
noncomputable def trainChildren (cfg : TreeConfig) (l : List HNode) (i : ℕ)
    (x : List AttrValue) (label : ℕ) : List HNode :=
  match l, i with
  | [], _ => []
  | c :: rest, 0 => trainNode cfg c x label :: rest
  | c :: rest, j + 1 => c :: trainChildren cfg rest j x label
termination_by sizeOf l

end

mutual

/-- Modelled from the spec: the routing descent shared by prediction — it
never mutates and always reaches some leaf, whose class counts it
returns (spec sections 4.3 and 4.4). -/
def routeCounts (n : HNode) (x : List AttrValue) : List ℕ :=
  match n with
  | .leaf ls => ls.counts
  | .catNode attr ch => routeChild ch (childIdx (x.getD attr (.vcat 0)) ch.length) x
  | .numNode attr thr l r =>
      if goesLeft x attr thr then routeCounts l x else routeCounts r x
termination_by sizeOf n

/-- Routing into the i-th child of a categorical decision node. -/
def routeChild (l : List HNode) (i : ℕ) (x : List AttrValue) : List ℕ :=
  match l, i with
  | [], _ => []
  | c :: _, 0 => routeCounts c x
  | _ :: rest, j + 1 => routeChild rest j x
termination_by sizeOf l

end

/-- Modelled from the spec: the majority class of a class-count vector,
ties broken by the lowest class id (spec section 4.4). -/
def majorityClass : List ℕ → ℕ
  | [] => 0
  | c :: rest => if rest.foldr max 0 ≤ c then 0 else majorityClass rest + 1

/-- Modelled from the spec: Predict routes to a leaf and returns the
majority class of its class-count vector (spec section 4.4). -/
def predictTree (t : HNode) (x : List AttrValue) : ℕ :=
  majorityClass (routeCounts t x)

/-- Modelled from the spec: the training-time error kinds SchemaMismatch
and InvalidCategory (spec section 7). -/
inductive TrainError where
  | schemaMismatch
  | invalidCategory
deriving DecidableEq

/-- Modelled from the spec: validation of an example against the schema —
wrong arity or wrong attribute kind is SchemaMismatch, a categorical id
at or beyond the configured arity is InvalidCategory; validation happens
before any mutation so that a failed call leaves the tree untouched (spec
section 7). -/
def validateAttrs : List AttrKind → List AttrValue → Option TrainError
  | [], [] => none
  | .categorical r :: ks, .vcat c :: vs =>
      if c < r then validateAttrs ks vs else some .invalidCategory
  | .numeric :: ks, .vnum _ :: vs => validateAttrs ks vs
  | [], _ :: _ => some .schemaMismatch
  | _ :: _, [] => some .schemaMismatch
  | .categorical _ :: _, .vnum _ :: _ => some .schemaMismatch
  | .numeric :: _, .vcat _ :: _ => some .schemaMismatch

/-- Modelled from the spec: Train — validate the example, then route it to
a leaf and run the update/split machinery; a validation failure reports
the error and returns the tree unchanged (spec sections 4.4 and 7). -/
noncomputable def trainTree (cfg : TreeConfig) (t : HNode) (x : List AttrValue) (label : ℕ) :
    HNode × Option TrainError :=
  match validateAttrs cfg.schema x with
  | some e => (t, some e)
  | none => (trainNode cfg t x label, none)

mutual

/-- Number of nodes of a tree. -/
def nodeCount : HNode → ℕ
  | .leaf _ => 1
  | .catNode _ ch => 1 + nodeCountList ch
  | .numNode _ _ l r => 1 + nodeCount l + nodeCount r

/-- Number of nodes of a list of subtrees. -/
def nodeCountList : List HNode → ℕ
  | [] => 0
  | c :: rest => nodeCount c + nodeCountList rest

end

mutual

/-- Structural growth: the second tree refines the first by replacing
leaves with arbitrary subtrees, while every decision node keeps its
attribute, its test and its child structure — a decision node is never
converted back into a leaf. -/
inductive Grows : HNode → HNode → Prop where
  | leaf (ls : LeafState) (t : HNode) : Grows (.leaf ls) t
  | cat {attr : ℕ} {ch ch' : List HNode} :
      GrowsList ch ch' → Grows (.catNode attr ch) (.catNode attr ch')
  | num {attr : ℕ} {thr : ℚ} {l l' r r' : HNode} :
      Grows l l' → Grows r r' → Grows (.numNode attr thr l r) (.numNode attr thr l' r')

/-- Pointwise growth of child lists. -/
inductive GrowsList : List HNode → List HNode → Prop where
  | nil : GrowsList [] []
  | cons {x y : HNode} {xs ys : List HNode} :
      Grows x y → GrowsList xs ys → GrowsList (x :: xs) (y :: ys)

end

/-- Fixture: a small configuration used by concrete witnesses. -/
noncomputable def cfgW : TreeConfig :=
  { schema := [.categorical 2], numClasses := 2, criterion := .gini, delta := 1/20,
    tau := 1/20, grace := 2, minSamples := 2, maxBins := 4 }

/-- Fixture: a small leaf state used by concrete witnesses. -/
def lsW : LeafState :=
  { counts := [1, 1], accs := [], sinceCheck := 0 }

/-- Fixture: a one-leaf tree with a tied class-count vector used by
concrete witnesses. -/
def tW : HNode :=
  .leaf { counts := [1, 3, 3], accs := [], sinceCheck := 0 }

/-! ## Theorems -/

/-- C8: constructing a FruitTree with a depth outside {5, 6, 7} throws
std::logic_error from the depth check, and construction with depth 5, 6 or
7 does not throw from the depth check (the constructor error at those
depths is the later map-lookup failure, not the depth check). -/
theorem C8_depth_check (d : ℕ) :
    fruitTreeCtor d = Except.error CtorError.invalidDepth ↔ ¬(d = 5 ∨ d = 6 ∨ d = 7) := by
  by_cases h : d = 5 ∨ d = 6 ∨ d = 7
  · rcases h with h | h | h <;> subst h <;>
      simp [fruitTreeCtor, validDepths, convexSetMap]
  · have h5 : d ≠ 5 := fun hh => h (Or.inl hh)
    have h6 : d ≠ 6 := fun hh => h (Or.inr (Or.inl hh))
    have h7 : d ≠ 7 := fun hh => h (Or.inr (Or.inr hh))
    simp [fruitTreeCtor, validDepths, h5, h6, h7, h]

/-- C8 witness: depth 4 fails the depth check while depth 6 passes it. -/
theorem C8_depth_check_witness :
    (fruitTreeCtor 4 = Except.error CtorError.invalidDepth ↔ ¬((4 : ℕ) = 5 ∨ (4 : ℕ) = 6 ∨ (4 : ℕ) = 7)) ∧
      fruitTreeCtor 4 = Except.error CtorError.invalidDepth ∧
      fruitTreeCtor 6 ≠ Except.error CtorError.invalidDepth := by
  refine ⟨C8_depth_check 4, ?_, ?_⟩ <;> simp [fruitTreeCtor, validDepths, convexSetMap]

/-- C2: the reward table is never precomputed.  FruitTree construction
fails at every depth: invalid depths fail the depth check, and at the
valid depths 5, 6 and 7 the lookup ConvexSetMap.at(depth) fails because
the map's keys are the character codes 53, 54 and 55, so no Sample call
can ever return a column of the tree matrix. -/
theorem C2_tree_never_built (d : ℕ) :
    fruitTreeCtor d =
      Except.error
        (if d = 5 ∨ d = 6 ∨ d = 7 then CtorError.mapKeyMissing else CtorError.invalidDepth) := by
  by_cases h : d = 5 ∨ d = 6 ∨ d = 7
  · rcases h with h | h | h <;> subst h <;>
      simp [fruitTreeCtor, validDepths, convexSetMap]
  · have h5 : d ≠ 5 := fun hh => h (Or.inl hh)
    have h6 : d ≠ 6 := fun hh => h (Or.inr (Or.inl hh))
    have h7 : d ≠ 7 := fun hh => h (Or.inr (Or.inr hh))
    simp [fruitTreeCtor, validDepths, h5, h6, h7, h]

/-- C9 counterexample: at state (row, column) = (1, 1) with action left,
Sample sets the next column to 2, not to the claimed s.Column = 1 (the
source adds the direction's column component to the current column). -/
theorem C9_counterexample :
    ¬((ftnSample ⟨500, 0, 6⟩ ⟨1, 1⟩ FTAction.left).2.col = 1) := by
  decide

/-- C9 amended: Sample sets next.Row = s.Row + 1 and
next.Column = 2·s.Column for left and 2·s.Column + 1 for right (the child
indices in the binary tree), and increments stepsPerformed by exactly one
per call. -/
theorem C9_sample_dynamics (env : FTEnv) (s : FTState) (a : FTAction) :
    (ftnSample env s a).2.row = s.row + 1 ∧
      (ftnSample env s a).2.col =
        (match a with
          | .left => 2 * s.col
          | .right => 2 * s.col + 1) ∧
      (ftnSample env s a).1.stepsPerformed = env.stepsPerformed + 1 ∧
      (ftnSample env s a).1.maxSteps = env.maxSteps ∧
      (ftnSample env s a).1.depth = env.depth := by
  cases a <;> refine ⟨rfl, ?_, rfl, rfl, rfl⟩ <;> simp [ftnSample, sampleNext] <;> omega

/-- C10: IsTerminal is true exactly when maxSteps is nonzero and
stepsPerformed has reached it, or the state's row equals the tree depth;
and InitialSample resets stepsPerformed to zero (leaving the other
configuration intact) and returns the root state (0, 0). -/
theorem C10_terminal_and_initial (env : FTEnv) (s : FTState) :
    (isTerminal env s = true ↔
        ((env.maxSteps ≠ 0 ∧ env.maxSteps ≤ env.stepsPerformed) ∨ s.row = env.depth)) ∧
      (initialSample env).1.stepsPerformed = 0 ∧
      (initialSample env).1.maxSteps = env.maxSteps ∧
      (initialSample env).1.depth = env.depth ∧
      (initialSample env).2 = ⟨0, 0⟩ := by
  refine ⟨?_, rfl, rfl, rfl, rfl⟩
  simp [isTerminal]

/-! ### Helper lemmas about list sums -/

theorem list_sum_map_neg (l : List ℕ) (f : ℕ → ℝ) :
    (l.map (fun x => -(f x))).sum = -((l.map f).sum) := by
  induction l with
  | nil => simp
  | cons a t ih => simp [ih]; ring

theorem list_sum_map_div (l : List ℕ) (f : ℕ → ℝ) (a : ℝ) :
    (l.map (fun k => f k / a)).sum = (l.map f).sum / a := by
  induction l with
  | nil => simp
  | cons b t ih => simp [ih, add_div]

theorem list_sum_nonpos (l : List ℝ) (h : ∀ x ∈ l, x ≤ 0) : l.sum ≤ 0 := by
  induction l with
  | nil => simp
  | cons a t ih =>
    simp only [List.sum_cons]
    have h1 := h a (by simp)
    have h2 := ih (fun x hx => h x (List.mem_cons_of_mem _ hx))
    linarith

theorem list_sum_zero_of_nonpos (l : List ℝ) (h : ∀ x ∈ l, x ≤ 0) (hs : l.sum = 0) :
    ∀ x ∈ l, x = 0 := by
  induction l with
  | nil => simp
  | cons a t ih =>
    have hat : a ≤ 0 := h a (by simp)
    have htt : ∀ x ∈ t, x ≤ 0 := fun x hx => h x (List.mem_cons_of_mem _ hx)
    have hts : t.sum ≤ 0 := list_sum_nonpos t htt
    simp only [List.sum_cons] at hs
    have ha0 : a = 0 := le_antisymm hat (by linarith)
    have hts0 : t.sum = 0 := by linarith
    intro x hx
    rcases List.mem_cons.mp hx with rfl | hx
    · exact ha0
    · exact ih htt hts0 x hx

theorem nat_sq_sum_le (l : List ℕ) : (l.map (fun k => k * k)).sum ≤ l.sum * l.sum := by
  induction l with
  | nil => simp
  | cons a t ih =>
    simp only [List.map_cons, List.sum_cons]
    have he : (a + t.sum) * (a + t.sum) = a * a + (t.sum * t.sum + 2 * (a * t.sum)) := by ring
    rw [he]
    exact Nat.add_le_add_left (le_trans ih (Nat.le_add_right _ _)) _

theorem nat_sq_sum_eq_iff (l : List ℕ) :
    (l.map (fun k => k * k)).sum = l.sum * l.sum ↔ l.countP (fun k => k != 0) ≤ 1 := by
  induction l with
  | nil => simp
  | cons a t ih =>
    simp only [List.map_cons, List.sum_cons, List.countP_cons]
    by_cases ha : a = 0
    · subst ha; simpa using ih
    · have hif : (if (fun k => k != 0) a = true then 1 else 0) = 1 := by simp [ha]
      rw [hif]
      have hQ := nat_sq_sum_le t
      constructor
      · intro h
        have he : (a + t.sum) * (a + t.sum) = a * a + (2 * (a * t.sum) + t.sum * t.sum) := by
          ring
        rw [he] at h
        have hS : a * t.sum = 0 := by omega
        have hS0 : t.sum = 0 := by
          rcases Nat.mul_eq_zero.mp hS with h' | h'
          · exact absurd h' ha
          · exact h'
        have hall : ∀ x ∈ t, x = 0 := by
          intro x hx
          have := List.le_sum_of_mem hx
          omega
        have hc : t.countP (fun k => k != 0) = 0 :=
          List.countP_eq_zero.mpr (fun x hx => by simp [hall x hx])
        omega
      · intro h
        have hc : t.countP (fun k => k != 0) = 0 := by omega
        have hall : ∀ x ∈ t, x = 0 := by
          intro x hx
          have := List.countP_eq_zero.mp hc x hx
          simpa using this
        have hS : t.sum = 0 := List.sum_eq_zero hall
        have hQ0 : (t.map (fun k => k * k)).sum = 0 := by
          apply List.sum_eq_zero
          intro x hx
          rcases List.mem_map.mp hx with ⟨k, hk, rfl⟩
          simp [hall k hk]
        rw [hS, hQ0]
        ring

theorem count_nonzero_le_one_iff (c : List ℕ) (hn : c.sum ≠ 0) :
    c.countP (fun k => k != 0) ≤ 1 ↔ ∀ k ∈ c, k = 0 ∨ k = c.sum := by
  induction c with
  | nil => simp at hn
  | cons a t ih =>
    rw [List.sum_cons] at hn ⊢
    rw [List.countP_cons, List.forall_mem_cons]
    by_cases ha : a = 0
    · subst ha
      simp only [zero_add] at hn ⊢
      rw [← ih hn]
      simp
    · have hif : (if (fun k => k != 0) a = true then 1 else 0) = 1 := by simp [ha]
      rw [hif]
      constructor
      · intro h
        have hc0 : t.countP (fun k => k != 0) = 0 := by omega
        have hall : ∀ x ∈ t, x = 0 := fun x hx => by
          simpa using List.countP_eq_zero.mp hc0 x hx
        have hS : t.sum = 0 := List.sum_eq_zero hall
        exact ⟨Or.inr (by omega), fun k hk => Or.inl (hall k hk)⟩
      · rintro ⟨h1, h2⟩
        have hS : t.sum = 0 := by
          rcases h1 with h1 | h1
          · exact absurd h1 ha
          · omega
        have hall : ∀ x ∈ t, x = 0 := by
          intro x hx
          have := List.le_sum_of_mem hx
          omega
        have hc0 : t.countP (fun k => k != 0) = 0 :=
          List.countP_eq_zero.mpr (fun x hx => by simp [hall x hx])
        omega

theorem cast_sq_sum (l : List ℕ) :
    (((l.map (fun k => k * k)).sum : ℕ) : ℝ)
      = (l.map (fun k : ℕ => (k : ℝ) * (k : ℝ))).sum := by
  induction l with
  | nil => simp
  | cons a t ih =>
    simp only [List.map_cons, List.sum_cons]
    rw [Nat.cast_add, Nat.cast_mul, ih]

theorem sum_div_sq (l : List ℕ) (n : ℝ) :
    (l.map (fun k : ℕ => ((k : ℝ) / n) ^ 2)).sum
      = (l.map (fun k : ℕ => (k : ℝ) * (k : ℝ))).sum / (n * n) := by
  induction l with
  | nil => simp
  | cons a t ih =>
    simp only [List.map_cons, List.sum_cons, ih]
    rw [div_pow, add_div]
    congr 1
    simp only [pow_two]

/-! ### The split criteria are permutation invariant and vanish exactly on
pure distributions -/

theorem gini_zero_iff (c : List ℕ) : giniImpurity c = 0 ↔ isPure c := by
  unfold giniImpurity isPure
  by_cases hn : c.sum = 0
  · rw [if_pos hn]
    have hall : ∀ x ∈ c, x = 0 := fun x hx => Nat.le_zero.mp (hn ▸ List.le_sum_of_mem hx)
    have hc : c.countP (fun k => k != 0) = 0 :=
      List.countP_eq_zero.mpr (fun x hx => by simp [hall x hx])
    simp [hc]
  · have hnR : ((c.sum : ℕ) : ℝ) ≠ 0 := Nat.cast_ne_zero.mpr hn
    rw [if_neg hn, sum_div_sq, ← cast_sq_sum, sub_eq_zero, eq_comm,
      div_eq_one_iff_eq (mul_ne_zero hnR hnR), ← Nat.cast_mul, Nat.cast_inj,
      nat_sq_sum_eq_iff]

theorem entropy_zero_iff (c : List ℕ) : entropy c = 0 ↔ isPure c := by
  unfold entropy isPure
  by_cases hn : c.sum = 0
  · have hall : ∀ x ∈ c, x = 0 := fun x hx => Nat.le_zero.mp (hn ▸ List.le_sum_of_mem hx)
    have hz :
        (c.map (fun k : ℕ =>
          ((k : ℝ) / (c.sum : ℝ)) * Real.logb 2 ((k : ℝ) / (c.sum : ℝ)))).sum = 0 := by
      apply List.sum_eq_zero
      intro x hx
      rcases List.mem_map.mp hx with ⟨k, hk, rfl⟩
      simp [hall k hk]
    rw [hz]
    have hc : c.countP (fun k => k != 0) = 0 :=
      List.countP_eq_zero.mpr (fun x hx => by simp [hall x hx])
    simp [hc]
  · have hnR : ((c.sum : ℕ) : ℝ) ≠ 0 := Nat.cast_ne_zero.mpr hn
    have hnpos : (0 : ℝ) < (c.sum : ℝ) := Nat.cast_pos.mpr (Nat.pos_of_ne_zero hn)
    have hterm : ∀ x ∈ c.map (fun k : ℕ =>
        ((k : ℝ) / (c.sum : ℝ)) * Real.logb 2 ((k : ℝ) / (c.sum : ℝ))), x ≤ 0 := by
      intro x hx
      rcases List.mem_map.mp hx with ⟨k, hk, rfl⟩
      have hk_le : k ≤ c.sum := List.le_sum_of_mem hk
      have hp0 : (0 : ℝ) ≤ (k : ℝ) / (c.sum : ℝ) :=
        div_nonneg (Nat.cast_nonneg k) (le_of_lt hnpos)
      have hp1 : (k : ℝ) / (c.sum : ℝ) ≤ 1 := (div_le_one hnpos).mpr (Nat.cast_le.mpr hk_le)
      have hlog : Real.logb 2 ((k : ℝ) / (c.sum : ℝ)) ≤ 0 :=
        Real.logb_nonpos (by norm_num) hp0 hp1
      exact mul_nonpos_iff.mpr (Or.inl ⟨hp0, hlog⟩)
    constructor
    · intro h
      have hzero := list_sum_zero_of_nonpos _ hterm (neg_eq_zero.mp h)
      have hk01 : ∀ k ∈ c, k = 0 ∨ k = c.sum := by
        intro k hk
        have hx := hzero _ (List.mem_map.mpr ⟨k, hk, rfl⟩)
        rcases mul_eq_zero.mp hx with hx' | hx'
        · left
          rcases div_eq_zero_iff.mp hx' with h' | h'
          · exact_mod_cast h'
          · exact absurd h' hnR
        · rcases Real.logb_eq_zero.mp hx' with h2 | h2 | h2 | h2 | h2 | h2
          · norm_num at h2
          · norm_num at h2
          · norm_num at h2
          · left
            rcases div_eq_zero_iff.mp h2 with h' | h'
            · exact_mod_cast h'
            · exact absurd h' hnR
          · right
            have hkn : (k : ℝ) = (c.sum : ℝ) := (div_eq_one_iff_eq hnR).mp h2
            exact_mod_cast hkn
          · exfalso
            have hp0 : (0 : ℝ) ≤ (k : ℝ) / (c.sum : ℝ) :=
              div_nonneg (Nat.cast_nonneg k) (le_of_lt hnpos)
            rw [h2] at hp0
            linarith
      exact (count_nonzero_le_one_iff c hn).mpr hk01
    · intro h
      have hk01 := (count_nonzero_le_one_iff c hn).mp h
      have hz :
          (c.map (fun k : ℕ =>
            ((k : ℝ) / (c.sum : ℝ)) * Real.logb 2 ((k : ℝ) / (c.sum : ℝ)))).sum = 0 := by
        apply List.sum_eq_zero
        intro x hx
        rcases List.mem_map.mp hx with ⟨k, hk, rfl⟩
        rcases hk01 k hk with h' | h'
        · simp [h']
        · rw [h', div_self hnR, Real.logb_one, mul_zero]
      rw [hz, neg_zero]

theorem crit_perm_invariant (crit : Criterion) (c c' : List ℕ) (hp : c.Perm c') :
    critImpurity crit c = critImpurity crit c' := by
  have hsum : c.sum = c'.sum := hp.sum_eq
  cases crit
  · simp only [critImpurity, giniImpurity, hsum]
    rw [(hp.map _).sum_eq]
  · simp only [critImpurity, entropy, hsum]
    rw [(hp.map _).sum_eq]

/-- C3: for every class-count vector, the split criterion's value on the
distribution (Gini impurity for the Gini criterion, entropy for the
information-gain criterion) is invariant under any permutation of the
class labels, and is zero exactly when the distribution is pure (at most
one class with a non-zero count, which covers the single-class and empty
cases). -/
theorem C3_criterion_perm_and_pure (crit : Criterion) (c c' : List ℕ) (hp : c.Perm c') :
    critImpurity crit c = critImpurity crit c' ∧ (critImpurity crit c = 0 ↔ isPure c) := by
  refine ⟨crit_perm_invariant crit c c' hp, ?_⟩
  cases crit
  · exact gini_zero_iff c
  · exact entropy_zero_iff c

/-- C3 witness: a concrete application at the permuted pair [1, 2], [2, 1]
for both criteria. -/
theorem C3_criterion_perm_and_pure_witness :
    (([1, 2] : List ℕ).Perm [2, 1]) ∧
      (critImpurity Criterion.gini [1, 2] = critImpurity Criterion.gini [2, 1] ∧
        (critImpurity Criterion.gini [1, 2] = 0 ↔ isPure [1, 2])) ∧
      (critImpurity Criterion.infoGain [1, 2] = critImpurity Criterion.infoGain [2, 1] ∧
        (critImpurity Criterion.infoGain [1, 2] = 0 ↔ isPure [1, 2])) :=
  ⟨by decide, C3_criterion_perm_and_pure Criterion.gini [1, 2] [2, 1] (by decide),
    C3_criterion_perm_and_pure Criterion.infoGain [1, 2] [2, 1] (by decide)⟩

/-! ### The multi-bin accumulator invariants -/

theorem addCounts_getD (xs : List ℕ) (ys : List ℕ) (n : ℕ) :
    (addCounts xs ys).getD n 0 = xs.getD n 0 + ys.getD n 0 := by
  induction xs generalizing ys n with
  | nil => simp [addCounts]
  | cons x xs ih =>
    cases ys with
    | nil => simp [addCounts]
    | cons y ys =>
      cases n with
      | zero => simp [addCounts]
      | succ m => simpa [addCounts] using ih ys m

theorem mergeAt_classTotal (bins : List (ℚ × List ℕ)) (i cls : ℕ) :
    classTotal (mergeAt bins i) cls = classTotal bins cls := by
  induction bins generalizing i with
  | nil => simp [mergeAt]
  | cons hd rest ih =>
    cases i with
    | zero =>
      cases rest with
      | nil =>
        obtain ⟨b1, c1⟩ := hd
        simp [mergeAt]
      | cons hd2 rest2 =>
        obtain ⟨b1, c1⟩ := hd
        obtain ⟨b2, c2⟩ := hd2
        simp only [mergeAt, classTotal, List.map_cons, List.sum_cons, addCounts_getD]
        omega
    | succ j =>
      obtain ⟨b, c⟩ := hd
      have hrec := ih j
      simp only [classTotal, List.map_cons, List.sum_cons] at *
      simp only [mergeAt, List.map_cons, List.sum_cons]
      omega

theorem mergeAt_map_fst (bins : List (ℚ × List ℕ)) (i : ℕ) :
    (mergeAt bins i).map Prod.fst = (bins.map Prod.fst).eraseIdx (i + 1) := by
  induction bins generalizing i with
  | nil => simp [mergeAt]
  | cons hd rest ih =>
    cases i with
    | zero =>
      cases rest with
      | nil =>
        obtain ⟨b1, c1⟩ := hd
        simp [mergeAt, List.eraseIdx]
      | cons hd2 rest2 =>
        obtain ⟨b1, c1⟩ := hd
        obtain ⟨b2, c2⟩ := hd2
        simp [mergeAt, List.eraseIdx]
    | succ j =>
      obtain ⟨b, c⟩ := hd
      simp only [mergeAt, List.map_cons, List.eraseIdx, ih j]

theorem insertObs_mem_fst (nc lab : ℕ) (v : ℚ) (bins : List (ℚ × List ℕ)) :
    ∀ x ∈ (insertObs nc v lab bins).map Prod.fst, x = v ∨ x ∈ bins.map Prod.fst := by
  induction bins with
  | nil => simp [insertObs]
  | cons hd rest ih =>
    obtain ⟨b, cs⟩ := hd
    by_cases h1 : v = b
    · intro x hx
      simp only [insertObs, if_pos h1, List.map_cons, List.mem_cons] at hx ⊢
      tauto
    · by_cases h2 : v < b
      · intro x hx
        simp only [insertObs, if_neg h1, if_pos h2, List.map_cons, List.mem_cons] at hx ⊢
        tauto
      · intro x hx
        simp only [insertObs, if_neg h1, if_neg h2, List.map_cons, List.mem_cons] at hx ⊢
        rcases hx with rfl | hx
        · tauto
        · rcases ih x hx with h | h
          · exact Or.inl h
          · exact Or.inr (Or.inr h)

theorem insertObs_pairwise (nc lab : ℕ) (v : ℚ) (bins : List (ℚ × List ℕ))
    (hp : List.Pairwise (· < ·) (bins.map Prod.fst)) :
    List.Pairwise (· < ·) ((insertObs nc v lab bins).map Prod.fst) := by
  induction bins with
  | nil => simp [insertObs]
  | cons hd rest ih =>
    obtain ⟨b, cs⟩ := hd
    simp only [List.map_cons, List.pairwise_cons] at hp
    obtain ⟨hb, hrest⟩ := hp
    by_cases h1 : v = b
    · simp only [insertObs, if_pos h1, List.map_cons]
      exact List.pairwise_cons.mpr ⟨hb, hrest⟩
    · by_cases h2 : v < b
      · simp only [insertObs, if_neg h1, if_pos h2, List.map_cons]
        refine List.pairwise_cons.mpr ⟨?_, List.pairwise_cons.mpr ⟨hb, hrest⟩⟩
        intro y hy
        rcases List.mem_cons.mp hy with rfl | hy
        · exact h2
        · exact lt_trans h2 (hb y hy)
      · have h3 : b < v := lt_of_le_of_ne (not_lt.mp h2) (fun hh => h1 hh.symm)
        simp only [insertObs, if_neg h1, if_neg h2, List.map_cons]
        refine List.pairwise_cons.mpr ⟨?_, ih hrest⟩
        intro y hy
        rcases insertObs_mem_fst nc lab v rest y hy with rfl | hy'
        · exact h3
        · exact hb y hy'

theorem insertObs_length (nc lab : ℕ) (v : ℚ) (bins : List (ℚ × List ℕ)) :
    (insertObs nc v lab bins).length ≤ bins.length + 1 := by
  induction bins with
  | nil => simp [insertObs]
  | cons hd rest ih =>
    obtain ⟨b, cs⟩ := hd
    by_cases h1 : v = b
    · simp [insertObs, h1]
    · by_cases h2 : v < b
      · simp [insertObs, h1, h2]
      · simp only [insertObs, if_neg h1, if_neg h2, List.length_cons]
        omega

theorem idxMin_lt (l : List ℚ) (h : l ≠ []) : idxMin l < l.length := by
  induction l with
  | nil => simp at h
  | cons x t ih =>
    cases t with
    | nil => simp [idxMin]
    | cons y rest =>
      have hm := ih (by simp)
      simp only [idxMin]
      split
      · simp
      · simp only [List.length_cons] at hm ⊢
        omega

theorem mergeAt_length (bins : List (ℚ × List ℕ)) (i : ℕ) (h : i + 1 < bins.length) :
    (mergeAt bins i).length + 1 = bins.length := by
  induction bins generalizing i with
  | nil => simp at h
  | cons hd rest ih =>
    cases i with
    | zero =>
      cases rest with
      | nil => simp at h
      | cons hd2 rest2 =>
        obtain ⟨b1, c1⟩ := hd
        obtain ⟨b2, c2⟩ := hd2
        simp [mergeAt]
    | succ j =>
      obtain ⟨b, c⟩ := hd
      simp only [mergeAt, List.length_cons]
      have := ih j (by simpa using h)
      omega

theorem binGaps_length (bins : List (ℚ × List ℕ)) :
    (binGaps bins).length = bins.length - 1 := by
  rw [binGaps, List.length_map, List.length_zip, List.length_tail]
  omega

theorem updateAcc_inv (nc k : ℕ) (hk : 1 ≤ k) (bins : List (ℚ × List ℕ)) (v : ℚ) (lab : ℕ)
    (hlen : bins.length ≤ k) (hp : List.Pairwise (· < ·) (bins.map Prod.fst)) :
    (updateAcc nc k bins v lab).length ≤ k ∧
      List.Pairwise (· < ·) ((updateAcc nc k bins v lab).map Prod.fst) := by
  unfold updateAcc
  have hlen2 : (insertObs nc v lab bins).length ≤ bins.length + 1 :=
    insertObs_length nc lab v bins
  have hpi : List.Pairwise (· < ·) ((insertObs nc v lab bins).map Prod.fst) :=
    insertObs_pairwise nc lab v bins hp
  by_cases hc : k < (insertObs nc v lab bins).length
  · rw [if_pos hc]
    have hgaps : (binGaps (insertObs nc v lab bins)).length
        = (insertObs nc v lab bins).length - 1 := binGaps_length _
    have hidx : idxMin (binGaps (insertObs nc v lab bins))
        < (binGaps (insertObs nc v lab bins)).length := by
      apply idxMin_lt
      intro hnil
      rw [hnil] at hgaps
      simp at hgaps
      omega
    have hidx2 : idxMin (binGaps (insertObs nc v lab bins)) + 1
        < (insertObs nc v lab bins).length := by omega
    have hml := mergeAt_length _ _ hidx2
    refine ⟨by omega, ?_⟩
    rw [mergeAt_map_fst]
    exact List.Pairwise.sublist (List.eraseIdx_sublist _ _) hpi
  · rw [if_neg hc]
    exact ⟨by omega, hpi⟩

theorem trainAcc_inv (nc k : ℕ) (hk : 1 ≤ k) (obs : List (ℚ × ℕ)) :
    (trainAcc nc k obs).length ≤ k ∧
      List.Pairwise (· < ·) ((trainAcc nc k obs).map Prod.fst) := by
  unfold trainAcc
  have H : ∀ (l : List (ℚ × ℕ)) (bins : List (ℚ × List ℕ)),
      bins.length ≤ k → List.Pairwise (· < ·) (bins.map Prod.fst) →
      (l.foldl (fun bins p => updateAcc nc k bins p.1 p.2) bins).length ≤ k ∧
        List.Pairwise (· < ·)
          ((l.foldl (fun bins p => updateAcc nc k bins p.1 p.2) bins).map Prod.fst) := by
    intro l
    induction l with
    | nil => intro bins h1 h2; exact ⟨h1, h2⟩
    | cons p rest ih =>
      intro bins h1 h2
      have hstep := updateAcc_inv nc k hk bins p.1 p.2 h1 h2
      exact ih _ hstep.1 hstep.2
  exact H obs [] (by simp) (by simp)

/-- C5: over every training sequence the multi-bin numeric accumulator
holds at most k bins (k at least 1) with strictly increasing bin
boundaries, and merging two adjacent bins preserves the total per-class
counts (for every class, the sum over all bins before the merge equals the
sum after). -/
theorem C5_multibin_invariants (numClasses k : ℕ) (hk : 1 ≤ k) :
    (∀ obs : List (ℚ × ℕ),
        (trainAcc numClasses k obs).length ≤ k ∧
          List.Pairwise (· < ·) ((trainAcc numClasses k obs).map Prod.fst)) ∧
      (∀ (bins : List (ℚ × List ℕ)) (i cls : ℕ),
          classTotal (mergeAt bins i) cls = classTotal bins cls) :=
  ⟨fun obs => trainAcc_inv numClasses k hk obs, fun bins i cls => mergeAt_classTotal bins i cls⟩

/-- C5 witness: the invariants applied at k = 2 with a concrete
four-observation training sequence, and a concrete adjacent merge. -/
theorem C5_multibin_invariants_witness :
    1 ≤ 2 ∧
      ((trainAcc 3 2 [(1, 0), (2, 1), (3, 2), (2, 1)]).length ≤ 2 ∧
        List.Pairwise (· < ·)
          ((trainAcc 3 2 [(1, 0), (2, 1), (3, 2), (2, 1)]).map Prod.fst)) ∧
      classTotal (mergeAt [(1, [1, 0]), (2, [0, 1])] 0) 1
        = classTotal [(1, [1, 0]), (2, [0, 1])] 1 :=
  ⟨by decide, (C5_multibin_invariants 3 2 (by decide)).1 [(1, 0), (2, 1), (3, 2), (2, 1)],
    (C5_multibin_invariants 3 2 (by decide)).2 [(1, [1, 0]), (2, [0, 1])] 0 1⟩

/-! ### Error atomicity of Train -/

/-- C6: for every tree state and every input on which Train fails
(SchemaMismatch or InvalidCategory), the tree returned by the failed call
is exactly the tree passed in — validation precedes any mutation, so
errors are atomic.  (Predict is non-mutating by construction: it is a pure
function of the tree and the example.) -/
theorem C6_train_error_atomic (cfg : TreeConfig) (t : HNode) (x : List AttrValue) (label : ℕ)
    (e : TrainError) (h : (trainTree cfg t x label).2 = some e) :
    (trainTree cfg t x label).1 = t := by
  unfold trainTree at h ⊢
  cases hv : validateAttrs cfg.schema x with
  | none => rw [hv] at h; simp at h
  | some e' => rfl

/-- C6 witness: training an out-of-arity category (id 5 with arity 2)
fails with InvalidCategory and leaves the one-leaf tree untouched. -/
theorem C6_train_error_atomic_witness :
    (trainTree cfgW (freshLeaf cfgW) [AttrValue.vcat 5] 0).2 = some TrainError.invalidCategory ∧
      (trainTree cfgW (freshLeaf cfgW) [AttrValue.vcat 5] 0).1 = freshLeaf cfgW :=
  ⟨rfl, C6_train_error_atomic cfgW (freshLeaf cfgW) [AttrValue.vcat 5] 0
    TrainError.invalidCategory rfl⟩

/-! ### Monotonic growth of the tree -/

theorem nodeCount_pos (t : HNode) : 1 ≤ nodeCount t := by
  cases t <;> simp only [nodeCount] <;> omega

mutual

theorem grows_refl : ∀ t : HNode, Grows t t
  | .leaf ls => Grows.leaf ls _
  | .catNode _ ch => Grows.cat (growsList_refl ch)
  | .numNode _ _ l r => Grows.num (grows_refl l) (grows_refl r)
termination_by t => sizeOf t

theorem growsList_refl : ∀ l : List HNode, GrowsList l l
  | [] => GrowsList.nil
  | c :: rest => GrowsList.cons (grows_refl c) (growsList_refl rest)
termination_by l => sizeOf l

end

mutual

theorem trainNode_grows (cfg : TreeConfig) : ∀ (n : HNode) (x : List AttrValue) (label : ℕ),
    Grows n (trainNode cfg n x label) ∧ nodeCount n ≤ nodeCount (trainNode cfg n x label)
  | .leaf ls, x, label => by
      constructor
      · exact Grows.leaf ls _
      · have h := nodeCount_pos (trainNode cfg (.leaf ls) x label)
        simp only [nodeCount]
        omega
  | .catNode attr ch, x, label => by
      have h := trainChildren_grows cfg ch (childIdx (x.getD attr (.vcat 0)) ch.length) x label
      constructor
      · simp only [trainNode]
        exact Grows.cat h.1
      · simp only [trainNode, nodeCount]
        have h2 := h.2
        omega
  | .numNode attr thr l r, x, label => by
      by_cases hg : goesLeft x attr thr
      · have h := trainNode_grows cfg l x label
        constructor
        · simp only [trainNode, if_pos hg]
          exact Grows.num h.1 (grows_refl r)
        · simp only [trainNode, if_pos hg, nodeCount]
          have h2 := h.2
          omega
      · have h := trainNode_grows cfg r x label
        constructor
        · simp only [trainNode, if_neg hg]
          exact Grows.num (grows_refl l) h.1
        · simp only [trainNode, if_neg hg, nodeCount]
          have h2 := h.2
          omega
termination_by n _ _ => sizeOf n

theorem trainChildren_grows (cfg : TreeConfig) :
    ∀ (l : List HNode) (i : ℕ) (x : List AttrValue) (label : ℕ),
    GrowsList l (trainChildren cfg l i x label) ∧
      nodeCountList l ≤ nodeCountList (trainChildren cfg l i x label)
  | [], _, _, _ => by
      constructor
      · simp only [trainChildren]
        exact GrowsList.nil
      · simp only [trainChildren]
        exact le_refl _
  | c :: rest, 0, x, label => by
      have h := trainNode_grows cfg c x label
      constructor
      · simp only [trainChildren]
        exact GrowsList.cons h.1 (growsList_refl rest)
      · simp only [trainChildren, nodeCountList]
        have h2 := h.2
        omega
  | c :: rest, j + 1, x, label => by
      have h := trainChildren_grows cfg rest j x label
      constructor
      · simp only [trainChildren]
        exact GrowsList.cons (grows_refl c) h.1
      · simp only [trainChildren, nodeCountList]
        have h2 := h.2
        omega
termination_by l _ _ _ => sizeOf l

end

/-- C7: over any training sequence a decision node is never converted
back into a leaf (every Train call relates the old tree to the new one by
the Grows relation, which keeps every decision node's attribute, test and
child structure and only lets leaves be replaced), and the node count is
non-decreasing after every Train call, including failed ones. -/
theorem C7_monotonic_growth (cfg : TreeConfig) (t : HNode) (x : List AttrValue) (label : ℕ) :
    Grows t (trainTree cfg t x label).1 ∧
      nodeCount t ≤ nodeCount (trainTree cfg t x label).1 := by
  unfold trainTree
  cases hv : validateAttrs cfg.schema x with
  | some e => exact ⟨grows_refl t, le_refl _⟩
  | none => exact trainNode_grows cfg t x label

/-! ### Prediction returns the majority class of the routed leaf -/

theorem getD_le_foldr_max (l : List ℕ) (j : ℕ) : l.getD j 0 ≤ l.foldr max 0 := by
  induction l generalizing j with
  | nil => simp
  | cons c rest ih =>
    cases j with
    | zero => simp only [List.getD_cons_zero, List.foldr_cons]; exact le_max_left _ _
    | succ j' =>
      simp only [List.getD_cons_succ, List.foldr_cons]
      exact le_trans (ih j') (le_max_right _ _)

theorem majority_getD_eq_max (l : List ℕ) : l.getD (majorityClass l) 0 = l.foldr max 0 := by
  induction l with
  | nil => simp [majorityClass]
  | cons c rest ih =>
    by_cases hc : rest.foldr max 0 ≤ c
    · simp only [majorityClass, if_pos hc, List.getD_cons_zero, List.foldr_cons]
      exact (max_eq_left hc).symm
    · simp only [majorityClass, if_neg hc, List.getD_cons_succ, List.foldr_cons, ih]
      exact (max_eq_right (le_of_lt (not_le.mp hc))).symm

theorem majority_le (l : List ℕ) (j : ℕ) : l.getD j 0 ≤ l.getD (majorityClass l) 0 := by
  rw [majority_getD_eq_max]
  exact getD_le_foldr_max l j

theorem majority_strict (l : List ℕ) :
    ∀ j, j < majorityClass l → l.getD j 0 < l.getD (majorityClass l) 0 := by
  induction l with
  | nil => intro j hj; simp [majorityClass] at hj
  | cons c rest ih =>
    intro j hj
    by_cases hc : rest.foldr max 0 ≤ c
    · simp [majorityClass, if_pos hc] at hj
    · simp only [majorityClass, if_neg hc] at hj ⊢
      cases j with
      | zero =>
        simp only [List.getD_cons_zero, List.getD_cons_succ]
        rw [majority_getD_eq_max]
        exact not_le.mp hc
      | succ j' =>
        simp only [List.getD_cons_succ]
        exact ih j' (by omega)

theorem majority_bound (l : List ℕ) :
    majorityClass l < l.length ∨ (l.length = 0 ∧ majorityClass l = 0) := by
  induction l with
  | nil => right; simp [majorityClass]
  | cons c rest ih =>
    left
    by_cases hc : rest.foldr max 0 ≤ c
    · simp [majorityClass, if_pos hc]
    · simp only [majorityClass, if_neg hc, List.length_cons]
      rcases ih with h | ⟨h0, _⟩
      · omega
      · have hrest : rest = [] := List.length_eq_zero.mp h0
        rw [hrest] at hc
        simp at hc

/-- C4: for every example, Predict routes the example from the root to a
leaf and returns the majority class of that leaf's class-count vector with
ties broken by the lowest class id: the returned class's count is at least
every entry of the routed leaf's counts, every class id below it has a
strictly smaller count, and the returned class is a valid index (class 0
for an empty count vector).  Predict is a pure function of the tree and
the example, hence deterministic. -/
theorem C4_predict_majority (t : HNode) (x : List AttrValue) :
    predictTree t x = majorityClass (routeCounts t x) ∧
      (∀ j : ℕ, (routeCounts t x).getD j 0 ≤ (routeCounts t x).getD (predictTree t x) 0) ∧
      (∀ j : ℕ, j < predictTree t x →
        (routeCounts t x).getD j 0 < (routeCounts t x).getD (predictTree t x) 0) ∧
      (predictTree t x < (routeCounts t x).length ∨
        ((routeCounts t x).length = 0 ∧ predictTree t x = 0)) := by
  refine ⟨rfl, ?_, ?_, ?_⟩
  · intro j
    exact majority_le (routeCounts t x) j
  · intro j hj
    exact majority_strict (routeCounts t x) j hj
  · exact majority_bound (routeCounts t x)

/-- C4 witness: on the one-leaf tree with counts [1, 3, 3] the maximum 3
is attained at class ids 1 and 2 and Predict returns the lower id 1; the
majority and strictness conclusions are evaluated at concrete indices. -/
theorem C4_predict_majority_witness :
    ((routeCounts tW []).getD 2 0 ≤ (routeCounts tW []).getD (predictTree tW []) 0) ∧
      (0 < predictTree tW [] ∧
        (routeCounts tW []).getD 0 0 < (routeCounts tW []).getD (predictTree tW []) 0) ∧
      predictTree tW [] = 1 := by
  have hroute : routeCounts tW [] = [1, 3, 3] := by simp [routeCounts, tW]
  have hpred : predictTree tW [] = 1 := by
    unfold predictTree
    rw [hroute]
    decide
  refine ⟨(C4_predict_majority tW []).2.1 2,
    ⟨?_, (C4_predict_majority tW []).2.2.1 0 ?_⟩, hpred⟩
  · rw [hpred]
    decide
  · rw [hpred]
    decide

/-! ### The Hoeffding split decision -/

theorem foldl_max_init_le (l : List ℝ) (a : ℝ) : a ≤ l.foldl max a := by
  induction l generalizing a with
  | nil => simp
  | cons x t ih =>
    simp only [List.foldl_cons]
    exact le_trans (le_max_left a x) (ih (max a x))

theorem mem_le_foldl_max (l : List ℝ) (a : ℝ) : ∀ q ∈ l, q ≤ l.foldl max a := by
  induction l generalizing a with
  | nil => simp
  | cons x t ih =>
    intro q hq
    simp only [List.foldl_cons]
    rcases List.mem_cons.mp hq with rfl | hq
    · exact le_trans (le_max_right a q) (foldl_max_init_le t (max a q))
    · exact ih (max a x) q hq

theorem foldl_max_mem (l : List ℝ) (a : ℝ) : l.foldl max a = a ∨ l.foldl max a ∈ l := by
  induction l generalizing a with
  | nil => left; rfl
  | cons x t ih =>
    simp only [List.foldl_cons]
    rcases ih (max a x) with h | h
    · rcases max_choice a x with hm | hm
      · left; rw [h, hm]
      · right; rw [h, hm]; exact List.mem_cons_self x t
    · right; exact List.mem_cons_of_mem x h

theorem le_listMaxQ (l : List ℝ) : ∀ q ∈ l, q ≤ listMaxQ l := by
  cases l with
  | nil => simp
  | cons x t =>
    intro q hq
    simp only [listMaxQ]
    rcases List.mem_cons.mp hq with rfl | hq
    · exact foldl_max_init_le t q
    · exact mem_le_foldl_max t x q hq

theorem listMaxQ_mem (l : List ℝ) (h : l ≠ []) : listMaxQ l ∈ l := by
  cases l with
  | nil => simp at h
  | cons x t =>
    simp only [listMaxQ]
    rcases foldl_max_mem t x with h' | h'
    · rw [h']; exact List.mem_cons_self x t
    · exact List.mem_cons_of_mem x h'

theorem secondMaxQ_le (l : List ℝ) (h0 : (0 : ℝ) ∈ l) : secondMaxQ l ≤ listMaxQ l := by
  unfold secondMaxQ
  have hmax0 : (0 : ℝ) ≤ listMaxQ l := le_listMaxQ l 0 h0
  have hsub : List.Sublist (l.eraseP (fun a => decide (a = listMaxQ l))) l :=
    List.eraseP_sublist l
  cases he : l.eraseP (fun a => decide (a = listMaxQ l)) with
  | nil => simpa [listMaxQ] using hmax0
  | cons y t =>
    have hmem : listMaxQ (y :: t) ∈ y :: t := listMaxQ_mem _ (by simp)
    have hmem' : listMaxQ (y :: t) ∈ l := hsub.subset (by rw [he]; exact hmem)
    exact le_listMaxQ l _ hmem'

/-- C1: when a leaf evaluates a split it computes the Hoeffding bound
epsilon = sqrt(R^2 ln(1/delta) / (2 n)) with R = ln(#classes) for
information gain and 1 for Gini and n the number of examples seen at the
leaf (the sum of its class counts), forms Delta G = G1 - G2 over the
candidate list that starts with the null "do not split" option of quality
zero, and splits exactly when Delta G > epsilon or when
Delta G <= epsilon < tau; G1 is the best candidate quality (an upper
bound of every candidate, G2 no larger). -/
theorem C1_hoeffding_split_rule (cfg : TreeConfig) (ls : LeafState) :
    (shouldSplit cfg ls ↔
        (listMaxQ (candQs cfg ls) - secondMaxQ (candQs cfg ls)
            > hoeffdingEpsilon (criterionRange cfg.criterion cfg.numClasses) cfg.delta
                ls.counts.sum
          ∨ (listMaxQ (candQs cfg ls) - secondMaxQ (candQs cfg ls)
                ≤ hoeffdingEpsilon (criterionRange cfg.criterion cfg.numClasses) cfg.delta
                    ls.counts.sum
              ∧ hoeffdingEpsilon (criterionRange cfg.criterion cfg.numClasses) cfg.delta
                  ls.counts.sum < cfg.tau))) ∧
      hoeffdingEpsilon (criterionRange cfg.criterion cfg.numClasses) cfg.delta ls.counts.sum
        = Real.sqrt ((criterionRange cfg.criterion cfg.numClasses) ^ 2
            * Real.log (1 / cfg.delta) / (2 * (ls.counts.sum : ℝ))) ∧
      criterionRange Criterion.gini cfg.numClasses = 1 ∧
      criterionRange Criterion.infoGain cfg.numClasses = Real.log (cfg.numClasses : ℝ) ∧
      (leafCandidates cfg ls).head? = some (SplitCand.nullCand, 0) ∧
      (∀ q ∈ candQs cfg ls, q ≤ listMaxQ (candQs cfg ls)) ∧
      secondMaxQ (candQs cfg ls) ≤ listMaxQ (candQs cfg ls) := by
  have hmem0 : (0 : ℝ) ∈ candQs cfg ls := by
    unfold candQs leafCandidates
    exact List.mem_cons_self _ _
  refine ⟨?_, rfl, rfl, rfl, rfl, le_listMaxQ _, secondMaxQ_le _ hmem0⟩
  unfold shouldSplit
  constructor
  · intro h
    rcases h with h | h
    · exact Or.inl h
    · by_cases hA : listMaxQ (candQs cfg ls) - secondMaxQ (candQs cfg ls)
          > hoeffdingEpsilon (criterionRange cfg.criterion cfg.numClasses) cfg.delta
              ls.counts.sum
      · exact Or.inl hA
      · exact Or.inr ⟨not_lt.mp hA, h⟩
  · intro h
    rcases h with h | ⟨h1, h2⟩
    · exact Or.inl h
    · exact Or.inr h2

/-- C1 witness: the null option's quality zero belongs to the candidate
qualities of the witness leaf and is bounded by the best quality. -/
theorem C1_hoeffding_split_rule_witness :
    (0 : ℝ) ∈ candQs cfgW lsW ∧ (0 : ℝ) ≤ listMaxQ (candQs cfgW lsW) := by
  have hmem : (0 : ℝ) ∈ candQs cfgW lsW := by
    unfold candQs leafCandidates
    exact List.mem_cons_self _ _
  exact ⟨hmem, (C1_hoeffding_split_rule cfgW lsW).2.2.2.2.2.1 0 hmem⟩
